import Mathlib

/-!
Verification development for the memorial-wall backend.

The backend stores photo metadata rows in a catalog table, keeps the catalog
bounded by evicting the oldest rows past MAX_PHOTOS, serves the newest rows
through GET /photos, deletes rows through an admin-gated DELETE route, and
fans out live events over server-sent events.

The shallow embedding below translates the two source variants:
the Postgres variant (src/server.js) and the SQLite variant
(src/unnamed/part_000).  SQL queries of the form ORDER BY key DESC are
embedded relationally: a valid query answer is any permutation of the table
that is weakly sorted on the key, since the engine is free to order rows
with equal keys arbitrarily.  A deterministic executable model
(insertion sort) realises one such answer for concrete evaluation.
-/

namespace MemorialWall

/-- A row of the photos table: id TEXT PRIMARY KEY, public_id, url,
thumbnail_url, created_at.  Timestamps are modelled in milliseconds. -/
structure Photo where
  id : String
  publicId : String
  url : String
  thumbnailUrl : String
  createdAt : Nat
deriving DecidableEq, Repr

/-- Comparison used by ORDER BY created_at DESC in the Postgres variant:
row p may come no later than row q when q is not strictly newer. -/
def newerFirst (p q : Photo) : Prop := q.createdAt ≤ p.createdAt

instance : DecidableRel newerFirst := fun p q => Nat.decLe q.createdAt p.createdAt

/-- Comparison used by ORDER BY datetime(createdAt) DESC in the SQLite
variant: datetime() truncates to whole seconds, so the key is the
timestamp divided by 1000. -/
def newerSecondFirst (p q : Photo) : Prop :=
  q.createdAt / 1000 ≤ p.createdAt / 1000

instance : DecidableRel newerSecondFirst :=
  fun p q => Nat.decLe (q.createdAt / 1000) (p.createdAt / 1000)

/-- Lexicographic comparison of character lists, used for the id
tiebreak the specification claims. -/
def charListLt : List Char → List Char → Bool
  | [], [] => false
  | [], _ :: _ => true
  | _ :: _, [] => false
  | c :: cs, d :: ds => if c < d then true else if d < c then false else charListLt cs ds

/-- Lexicographic comparison of identifier strings, character by
character.  The specification never fixes an encoding for the id
tiebreak, so the character-list order stands in for it. -/
def idLt (a b : String) : Prop := charListLt a.data b.data = true

instance : DecidableRel idLt := fun a b => by
  unfold idLt; infer_instance

/-- The strict total order the specification claims for listings and
eviction: createdAt descending with ties broken by id descending. -/
def specOrder (p q : Photo) : Prop :=
  q.createdAt < p.createdAt ∨ (q.createdAt = p.createdAt ∧ idLt q.id p.id)

instance : DecidableRel specOrder := fun p q => by
  unfold specOrder; infer_instance

/-- Non-strict version of the order claimed by the specification, used to
compute the rows the specification calls the newest ones. -/
def specLe (p q : Photo) : Prop :=
  q.createdAt < p.createdAt ∨ (q.createdAt = p.createdAt ∧ ¬ idLt p.id q.id)

instance : DecidableRel specLe := fun p q => by
  unfold specLe; infer_instance

/-- Relational semantics of SELECT ... ORDER BY created_at DESC (Postgres):
a valid answer is a permutation of the table weakly sorted newest first. -/
def orderedByCreatedAtDesc (table out : List Photo) : Prop :=
  table.Perm out ∧ out.Sorted newerFirst

/-- Relational semantics of SELECT ... ORDER BY datetime(createdAt) DESC
(SQLite): a valid answer is a permutation weakly sorted on the
second-truncated timestamp. -/
def orderedBySecondDesc (table out : List Photo) : Prop :=
  table.Perm out ∧ out.Sorted newerSecondFirst

/-- Deterministic executable realisation of ORDER BY created_at DESC. -/
def sortNewest (l : List Photo) : List Photo := List.insertionSort newerFirst l

/-- Deterministic realisation of the order the specification claims,
createdAt descending then id descending. -/
def sortNewestById (l : List Photo) : List Photo := List.insertionSort specLe l

instance : IsTotal Photo newerFirst :=
  ⟨fun p q => Nat.le_total q.createdAt p.createdAt⟩

instance : IsTrans Photo newerFirst :=
  ⟨fun _ _ _ h1 h2 => Nat.le_trans h2 h1⟩

instance : IsTotal Photo newerSecondFirst :=
  ⟨fun p q => Nat.le_total (q.createdAt / 1000) (p.createdAt / 1000)⟩

instance : IsTrans Photo newerSecondFirst :=
  ⟨fun _ _ _ h1 h2 => Nat.le_trans h2 h1⟩

/-- JavaScript parseInt(s, 10): skip leading spaces, optional sign, then
the longest digit run; none stands for NaN (no digits at all). -/
def digitsVal (ds : List Char) : Nat :=
  ds.foldl (fun acc c => acc * 10 + (c.toNat - 48)) 0

/-- Result of parseInt(s, 10) on the raw query string, none meaning NaN. -/
def jsParseInt (s : String) : Option Int :=
  let cs := s.data.dropWhile (fun c => c = ' ')
  let body : Int × List Char :=
    match cs with
    | '-' :: r => (-1, r)
    | '+' :: r => (1, r)
    | _ => (1, cs)
  let ds := body.2.takeWhile Char.isDigit
  if ds.isEmpty then none else some (body.1 * (digitsVal ds : Int))

/-- Effective LIMIT computed by GET /photos in both variants:
Math.min(parseInt(req.query.limit or "800", 10), 2000).  An absent or
empty parameter falls back to the string "800"; a non-numeric parameter
gives NaN, modelled as none. -/
def effLimit (q : Option String) : Option Int :=
  let s : String :=
    match q with
    | none => "800"
    | some s => if s = "" then "800" else s
  match jsParseInt s with
  | none => none
  | some v => some (min v 2000)

/-- Valid answers of the Postgres listing query
SELECT ... ORDER BY created_at DESC LIMIT v.  Postgres rejects a negative
LIMIT, so a valid row answer requires 0 ≤ v. -/
def pgListRows (table : List Photo) (v : Int) (out : List Photo) : Prop :=
  0 ≤ v ∧ ∃ full, orderedByCreatedAtDesc table full ∧ out = full.take v.toNat

/-- Valid answers of the SQLite listing query
SELECT ... ORDER BY datetime(createdAt) DESC LIMIT v.  SQLite treats a
negative LIMIT as unbounded and returns every row. -/
def sqliteListRows (table : List Photo) (v : Int) (out : List Photo) : Prop :=
  ∃ full, orderedBySecondDesc table full ∧
    out = if v < 0 then full else full.take v.toNat

/-- Valid answers of the Postgres eviction query
SELECT id, public_id FROM photos ORDER BY created_at DESC OFFSET m. -/
def pgListBeyond (table : List Photo) (m : Nat) (out : List Photo) : Prop :=
  ∃ full, orderedByCreatedAtDesc table full ∧ out = full.drop m

/-- Valid answers of the SQLite eviction query, which adds LIMIT 1000000
in front of OFFSET m. -/
def sqliteListBeyond (table : List Photo) (m : Nat) (out : List Photo) : Prop :=
  ∃ full, orderedBySecondDesc table full ∧ out = (full.drop m).take 1000000

/-- Events written to the live SSE channel by sseSend. -/
inductive WallEvent where
  | photoUploaded (p : Photo)
  | photoDeleted (id : String)
deriving DecidableEq, Repr

/-- Observable state of the whole system: the photos table, the set of
objects present in the blob store, the blob deletions attempted so far,
and the events published so far. -/
structure SysState where
  catalog : List Photo
  blob : List String
  blobDeleteAttempts : List String
  events : List WallEvent
deriving DecidableEq, Repr

/-- State before any upload. -/
def initState : SysState :=
  { catalog := [], blob := [], blobDeleteAttempts := [], events := [] }

/-- Thumbnail URL built once at upload time from the Cloudinary public id
(makeThumbnailUrl in the source; the exact URL text is immaterial here). -/
def makeThumbnailUrl (publicId : String) : String :=
  "https://res.cloudinary.com/demo/image/upload/c_fill,h_250,w_250/f_auto,q_auto/" ++ publicId

/-- The Photo row created by POST /upload for a fresh id at time t: the
Cloudinary public id is folder/id, and both URLs are derived from it. -/
def uploadedPhoto (id : String) (t : Nat) : Photo :=
  { id := id
    publicId := "memorial_wall/" ++ id
    url := "https://res.cloudinary.com/demo/image/upload/memorial_wall/" ++ id
    thumbnailUrl := makeThumbnailUrl ("memorial_wall/" ++ id)
    createdAt := t }

/-- Pair form of uploadedPhoto, for upload sequences given as
(id, timestamp) pairs. -/
def mkUpload (u : String × Nat) : Photo := uploadedPhoto u.1 u.2

/-- Effect of the upload route up to and including the INSERT: the blob is
written first, then the row is appended to the table. -/
def insertUpload (id : String) (t : Nat) (s : SysState) : SysState :=
  let p := uploadedPhoto id t
  { s with catalog := s.catalog ++ [p], blob := s.blob ++ [p.publicId] }

/-- Deterministic part of enforceMaxPhotos once the eviction query has
answered full: rows of full beyond maxPhotos are the eviction candidates;
each of their blobs gets one best-effort Cloudinary destroy whose success
is given by f (failures are swallowed by the empty catch), and the rows
are then deleted from the table unconditionally. -/
def enforceStep (maxPhotos : Nat) (f : String → Bool) (s : SysState)
    (full : List Photo) : SysState :=
  let extra := full.drop maxPhotos
  let extraIds := extra.map Photo.id
  let extraPids := extra.map Photo.publicId
  { catalog := s.catalog.filter (fun p => decide (p.id ∉ extraIds))
    blob := s.blob.filter (fun pid => decide (¬ (pid ∈ extraPids ∧ f pid = true)))
    blobDeleteAttempts := s.blobDeleteAttempts ++ extraPids
    events := s.events }

/-- One completed enforceMaxPhotos run given the answer full to the
eviction query. -/
def enforceRunWith (maxPhotos : Nat) (f : String → Bool) (s : SysState)
    (full : List Photo) (s2 : SysState) : Prop :=
  orderedByCreatedAtDesc s.catalog full ∧ s2 = enforceStep maxPhotos f s full

/-- One completed enforceMaxPhotos run: some valid answer to the ordered
query was observed and acted upon. -/
def enforceRun (maxPhotos : Nat) (f : String → Bool) (s s2 : SysState) : Prop :=
  ∃ full, enforceRunWith maxPhotos f s full s2

/-- Deterministic executable enforceMaxPhotos, realising the query answer
with the insertion sort. -/
def enforceMaxPhotos (maxPhotos : Nat) (f : String → Bool) (s : SysState) : SysState :=
  enforceStep maxPhotos f s (sortNewest s.catalog)

/-- Publication of the photo_uploaded event at the end of the upload
route. -/
def pushUploadEvent (id : String) (t : Nat) (s : SysState) : SysState :=
  { s with events := s.events ++ [WallEvent.photoUploaded (uploadedPhoto id t)] }

/-- One sequential upload whose triggered enforcement run has completed:
blob write and INSERT, then some valid enforcement run, then the
photo_uploaded event. -/
def uploadRun (maxPhotos : Nat) (f : String → Bool) (id : String) (t : Nat)
    (s s2 : SysState) : Prop :=
  ∃ mid, enforceRun maxPhotos f (insertUpload id t s) mid ∧
    s2 = pushUploadEvent id t mid

/-- Deterministic executable upload step. -/
def uploadStep (maxPhotos : Nat) (f : String → Bool) (id : String) (t : Nat)
    (s : SysState) : SysState :=
  pushUploadEvent id t (enforceMaxPhotos maxPhotos f (insertUpload id t s))

/-- Deterministic run of a whole sequence of sequential uploads. -/
def runUploads (maxPhotos : Nat) (f : String → Bool)
    (us : List (String × Nat)) (s : SysState) : SysState :=
  us.foldl (fun st u => uploadStep maxPhotos f u.1 u.2 st) s

/-- Deterministic executable listNewest, realising the listing query with
the insertion sort. -/
def listNewestExec (table : List Photo) (k : Nat) : List Photo :=
  (sortNewest table).take k

/-- Responses of DELETE /photos/:id. -/
inductive DelResp where
  | forbidden
  | notFound
  | ok (id : String)
deriving DecidableEq, Repr

/-- The admin key in force: the ADMIN_KEY environment variable when set
and non-empty, otherwise the hardcoded fallback "12345" chosen by the
JavaScript or-default. -/
def ADMIN_KEY (env : Option String) : String :=
  match env with
  | none => "12345"
  | some s => if s = "" then "12345" else s

/-- DELETE /photos/:id: check the x-admin-key header against ADMIN_KEY,
look the row up by id (404 when absent, before any blob interaction),
then best-effort Cloudinary destroy with success given by f, DELETE of
the row, and the photo_deleted event. -/
def deletePhoto (env : Option String) (f : String → Bool) (key : Option String)
    (reqId : String) (s : SysState) : DelResp × SysState :=
  if key = some (ADMIN_KEY env) then
    match s.catalog.find? (fun p => decide (p.id = reqId)) with
    | none => (DelResp.notFound, s)
    | some row =>
        (DelResp.ok reqId,
          { catalog := s.catalog.filter (fun p => decide (¬ p.id = reqId))
            blob := if f row.publicId then
                s.blob.filter (fun pid => decide (¬ pid = row.publicId))
              else s.blob
            blobDeleteAttempts := s.blobDeleteAttempts ++ [row.publicId]
            events := s.events ++ [WallEvent.photoDeleted reqId] })
  else (DelResp.forbidden, s)

/-- Operations on the SSE layer: a client connecting to GET /events, a
call to sseSend while handling an upload or delete, and a client
disconnect. -/
inductive BusOp where
  | connect (h : Nat)
  | publish (e : String)
  | disconnect (h : Nat)
deriving DecidableEq, Repr

/-- State of the SSE layer: the sseClients set and the log of frames
written, each tagged with the receiving client. -/
structure BusState where
  subs : List Nat
  log : List (Nat × String)
deriving DecidableEq, Repr

/-- One step of the SSE layer.  Connect adds the client to sseClients
(a Set, so adding an existing member changes nothing) and writes the
hello frame to that client only; sseSend writes the frame to every
currently connected client; close removes the client from sseClients. -/
def busStep (s : BusState) : BusOp → BusState
  | BusOp.connect h =>
      { subs := if h ∈ s.subs then s.subs else s.subs ++ [h]
        log := s.log ++ [(h, "hello")] }
  | BusOp.publish e => { s with log := s.log ++ s.subs.map (fun g => (g, e)) }
  | BusOp.disconnect h => { s with subs := s.subs.filter (fun g => decide (¬ g = h)) }

/-- Run of the SSE layer from the empty client set. -/
def busRun (ops : List BusOp) : BusState :=
  ops.foldl busStep { subs := [], log := [] }

/-- Frames a given client received, in order. -/
def received (h : Nat) (s : BusState) : List String :=
  (s.log.filter (fun e => decide (e.fst = h))).map Prod.snd

/-- The event payload of a publish operation, if any. -/
def pubOf : BusOp → Option String
  | BusOp.publish e => some e
  | _ => none

/-- Valid answers of the listing query with a plain row count k:
some valid ordered answer, truncated by LIMIT k. -/
def validListNewest (table : List Photo) (k : Nat) (out : List Photo) : Prop :=
  ∃ full, orderedByCreatedAtDesc table full ∧ out = full.take k

/-- Strict ascending order on creation times, the shape of a catalog
written by sequential uploads whose timestamps strictly increase. -/
def ascendingTimes (l : List Photo) : Prop :=
  l.Pairwise (fun p q => p.createdAt < q.createdAt)

/-- Strict ascending order on whole-second timestamps: each row was
created in a strictly later second than the previous one, so no two rows
tie under either the millisecond or the second-truncated ordering. -/
def ascendingSeconds (l : List Photo) : Prop :=
  l.Pairwise (fun p q => p.createdAt / 1000 < q.createdAt / 1000)

/-- Valid answers of the SQLite listing query with a plain row count k:
some valid answer ordered on the second-truncated key, truncated by
LIMIT k. -/
def validListNewestSecond (table : List Photo) (k : Nat) (out : List Photo) : Prop :=
  ∃ full, orderedBySecondDesc table full ∧ out = full.take k

/-- Deterministic part of the SQLite variant of enforceMaxPhotos once its
eviction query has answered full: the query carries LIMIT 1000000 OFFSET
maxPhotos, so at most 1000000 candidates beyond maxPhotos are seen; the
rest is as in the Postgres variant. -/
def enforceStepSqlite (maxPhotos : Nat) (f : String → Bool) (s : SysState)
    (full : List Photo) : SysState :=
  let extra := (full.drop maxPhotos).take 1000000
  let extraIds := extra.map Photo.id
  let extraPids := extra.map Photo.publicId
  { catalog := s.catalog.filter (fun p => decide (p.id ∉ extraIds))
    blob := s.blob.filter (fun pid => decide (¬ (pid ∈ extraPids ∧ f pid = true)))
    blobDeleteAttempts := s.blobDeleteAttempts ++ extraPids
    events := s.events }

/-- One completed enforcement run of either variant: the Postgres run on
some answer ordered by the millisecond key, or the SQLite run on some
answer ordered by the second-truncated key. -/
def enforceRunAny (maxPhotos : Nat) (f : String → Bool) (s s2 : SysState) : Prop :=
  enforceRun maxPhotos f s s2 ∨
    ∃ full, orderedBySecondDesc s.catalog full ∧
      s2 = enforceStepSqlite maxPhotos f s full

/-- One sequential upload, in either variant, whose triggered enforcement
run has completed. -/
def uploadRunAny (maxPhotos : Nat) (f : String → Bool) (id : String) (t : Nat)
    (s s2 : SysState) : Prop :=
  ∃ mid, enforceRunAny maxPhotos f (insertUpload id t s) mid ∧
    s2 = pushUploadEvent id t mid

/-- Relational run of a sequence of sequential uploads in either variant,
each enforcement run completing before the next upload starts. -/
inductive UploadsRunAny (maxPhotos : Nat) (f : String → Bool) :
    List (String × Nat) → SysState → SysState → Prop where
  | nil (s : SysState) : UploadsRunAny maxPhotos f [] s s
  | cons (u : String × Nat) (us : List (String × Nat)) (s mid s2 : SysState) :
      uploadRunAny maxPhotos f u.1 u.2 s mid →
      UploadsRunAny maxPhotos f us mid s2 →
      UploadsRunAny maxPhotos f (u :: us) s s2

/-- Two rows sharing one createdAt timestamp, ids "a" and "b". -/
def photoTie1 : Photo := uploadedPhoto "a" 5

/-- Second row of the tie pair. -/
def photoTie2 : Photo := uploadedPhoto "b" 5

/-- Row created 1500 ms into the epoch, so within second 1. -/
def photoMs1 : Photo := uploadedPhoto "a" 1500

/-- Row created 1999 ms into the epoch, also within second 1 but strictly
newer in milliseconds. -/
def photoMs2 : Photo := uploadedPhoto "b" 1999

/-- Row with a distinct whole-second timestamp, for tie-free examples. -/
def photoT1 : Photo := uploadedPhoto "a" 1000

/-- Newer row with a distinct whole-second timestamp. -/
def photoT2 : Photo := uploadedPhoto "b" 2000

/-- Sample two-row state used to exercise enforcement. -/
def c3State : SysState :=
  { catalog := [photoT1, photoT2]
    blob := [photoT1.publicId, photoT2.publicId]
    blobDeleteAttempts := []
    events := [] }

/-- Sample one-row state used to exercise the delete route. -/
def c6State : SysState :=
  { catalog := [photoT1]
    blob := [photoT1.publicId]
    blobDeleteAttempts := []
    events := [] }

/-- State after uploading id "a" at time 5 with MAX_PHOTOS = 1. -/
def s1tie : SysState := uploadStep 1 (fun _ => true) "a" 5 initState

/-- State after then uploading id "b" also at time 5, where the
enforcement run observed the tied rows in the order a, b and therefore
evicted b, the row the specification calls newer. -/
def s2tie : SysState :=
  pushUploadEvent "b" 5
    (enforceStep 1 (fun _ => true) (insertUpload "b" 5 s1tie)
      [photoTie1, photoTie2])

theorem eq_of_sorted_perm_nodupKey (key : Photo → Nat) (l1 : List Photo) :
    ∀ (l2 : List Photo), l1.Perm l2 →
      (l1.map key).Nodup →
      l1.Sorted (fun p q => key q ≤ key p) →
      l2.Sorted (fun p q => key q ≤ key p) → l1 = l2 := by
  induction l1 with
  | nil =>
    intro l2 hp _ _ _
    exact hp.nil_eq
  | cons a t1 ih =>
    intro l2 hp hk hs1 hs2
    cases l2 with
    | nil => exact absurd hp.symm.nil_eq (by simp)
    | cons b t2 =>
      have hab : a = b := by
        by_contra hne
        have hamem : a ∈ b :: t2 := hp.mem_iff.mp (List.mem_cons_self a t1)
        have hbmem : b ∈ a :: t1 := hp.mem_iff.mpr (List.mem_cons_self b t2)
        have ha2 : a ∈ t2 := by
          rcases List.mem_cons.mp hamem with h | h
          · exact absurd h hne
          · exact h
        have hb1 : b ∈ t1 := by
          rcases List.mem_cons.mp hbmem with h | h
          · exact absurd h.symm hne
          · exact h
        have h1 : key b ≤ key a := (List.sorted_cons.mp hs1).1 b hb1
        have h2 : key a ≤ key b := (List.sorted_cons.mp hs2).1 a ha2
        have heq : key a = key b := Nat.le_antisymm h2 h1
        exact hne (List.inj_on_of_nodup_map hk (List.mem_cons_self a t1) hbmem heq)
      subst hab
      have ht : t1.Perm t2 := hp.cons_inv
      have htl : t1 = t2 :=
        ih t2 ht (List.nodup_cons.mp (by simpa using hk)).2
          (List.sorted_cons.mp hs1).2 (List.sorted_cons.mp hs2).2
      rw [htl]

theorem ordered_unique (table o1 o2 : List Photo)
    (hk : (table.map Photo.createdAt).Nodup)
    (h1 : orderedByCreatedAtDesc table o1) (h2 : orderedByCreatedAtDesc table o2) :
    o1 = o2 :=
  eq_of_sorted_perm_nodupKey Photo.createdAt o1 o2 (h1.1.symm.trans h2.1)
    (((h1.1.map Photo.createdAt).nodup_iff).mp hk) h1.2 h2.2

theorem ordered_unique_seconds (table o1 o2 : List Photo)
    (hk : (table.map (fun p => p.createdAt / 1000)).Nodup)
    (h1 : orderedBySecondDesc table o1) (h2 : orderedBySecondDesc table o2) :
    o1 = o2 :=
  eq_of_sorted_perm_nodupKey (fun p => p.createdAt / 1000) o1 o2
    (h1.1.symm.trans h2.1)
    (((h1.1.map (fun p => p.createdAt / 1000)).nodup_iff).mp hk) h1.2 h2.2

theorem sortedSecond_of_sortedNewest (l : List Photo)
    (h : l.Sorted newerFirst) : l.Sorted newerSecondFirst :=
  h.imp fun hab => Nat.div_le_div_right hab

theorem lt_of_div_lt {a b : Nat} (h : a / 1000 < b / 1000) : a < b := by
  by_contra hle
  push_neg at hle
  have hdiv : b / 1000 ≤ a / 1000 := Nat.div_le_div_right hle
  omega

theorem ascendingTimes_of_ascendingSeconds (l : List Photo)
    (h : ascendingSeconds l) : ascendingTimes l :=
  h.imp fun hlt => lt_of_div_lt hlt

theorem ordered_of_ascending_eq_reverse (l full : List Photo)
    (hasc : ascendingTimes l) (h : orderedByCreatedAtDesc l full) :
    full = l.reverse := by
  have hk : (l.map Photo.createdAt).Nodup :=
    List.pairwise_map.mpr (hasc.imp fun hlt => Nat.ne_of_lt hlt)
  have hrev : orderedByCreatedAtDesc l l.reverse := by
    refine ⟨(List.reverse_perm l).symm, ?_⟩
    rw [List.Sorted, List.pairwise_reverse]
    exact hasc.imp fun hlt => Nat.le_of_lt hlt
  exact ordered_unique l full l.reverse hk h hrev

theorem filter_not_mem_ids_append (l1 l2 : List Photo)
    (h : ((l1 ++ l2).map Photo.id).Nodup) :
    (l1 ++ l2).filter (fun p => decide (p.id ∉ l1.map Photo.id)) = l2 := by
  rw [List.map_append] at h
  obtain ⟨-, -, hdisj⟩ := List.nodup_append.mp h
  rw [List.filter_append]
  have h1 : l1.filter (fun p => decide (p.id ∉ l1.map Photo.id)) = [] := by
    refine List.filter_eq_nil_iff.mpr fun p hp => ?_
    simp only [decide_eq_true_eq]
    exact fun hnot => hnot (List.mem_map_of_mem Photo.id hp)
  have h2 : l2.filter (fun p => decide (p.id ∉ l1.map Photo.id)) = l2 := by
    refine List.filter_eq_self.mpr fun p hp => ?_
    simp only [decide_eq_true_eq]
    exact fun hmem => hdisj hmem (List.mem_map_of_mem Photo.id hp)
  rw [h1, h2, List.nil_append]

theorem filter_take_ids (l : List Photo) (m : Nat) (h : (l.map Photo.id).Nodup) :
    l.filter (fun p => decide (p.id ∉ (l.take m).map Photo.id)) = l.drop m := by
  have key := filter_not_mem_ids_append (l.take m) (l.drop m)
    (by rwa [List.take_append_drop])
  calc l.filter (fun p => decide (p.id ∉ (l.take m).map Photo.id))
      = (l.take m ++ l.drop m).filter
          (fun p => decide (p.id ∉ (l.take m).map Photo.id)) := by
        rw [List.take_append_drop]
    _ = l.drop m := key

theorem enforceStep_catalog (M : Nat) (f : String → Bool) (s : SysState)
    (full : List Photo) :
    (enforceStep M f s full).catalog =
      s.catalog.filter (fun p => decide (p.id ∉ (full.drop M).map Photo.id)) := rfl

theorem enforceStep_attempts (M : Nat) (f : String → Bool) (s : SysState)
    (full : List Photo) :
    (enforceStep M f s full).blobDeleteAttempts =
      s.blobDeleteAttempts ++ (full.drop M).map Photo.publicId := rfl

theorem enforceStep_events (M : Nat) (f : String → Bool) (s : SysState)
    (full : List Photo) :
    (enforceStep M f s full).events = s.events := rfl

theorem insertUpload_catalog (id : String) (t : Nat) (s : SysState) :
    (insertUpload id t s).catalog = s.catalog ++ [uploadedPhoto id t] := rfl

theorem pushUploadEvent_catalog (id : String) (t : Nat) (s : SysState) :
    (pushUploadEvent id t s).catalog = s.catalog := rfl

theorem filter_reverse_drop (l : List Photo) (M : Nat)
    (hids : (l.map Photo.id).Nodup) :
    l.filter (fun p => decide (p.id ∉ (l.reverse.drop M).map Photo.id))
      = l.drop (l.length - M) := by
  have hdrop : l.reverse.drop M
      = (l.take (l.length - M)).reverse := List.drop_reverse
  rw [hdrop]
  have hcong : ∀ p ∈ l,
      (decide (p.id ∉ ((l.take (l.length - M)).reverse).map Photo.id) : Bool)
      = decide (p.id ∉ (l.take (l.length - M)).map Photo.id) := by
    intro p _
    apply decide_eq_decide.mpr
    rw [List.map_reverse, List.mem_reverse]
  rw [List.filter_congr hcong]
  exact filter_take_ids _ _ hids

theorem ordered_of_ascending_eq_reverse_sec (l full : List Photo)
    (hasc : ascendingSeconds l) (h : orderedBySecondDesc l full) :
    full = l.reverse := by
  have hk : (l.map (fun p => p.createdAt / 1000)).Nodup :=
    List.pairwise_map.mpr (hasc.imp fun hlt => Nat.ne_of_lt hlt)
  have hrev : orderedBySecondDesc l l.reverse := by
    refine ⟨(List.reverse_perm l).symm, ?_⟩
    rw [List.Sorted, List.pairwise_reverse]
    exact hasc.imp fun hlt => Nat.le_of_lt hlt
  exact ordered_unique_seconds l full l.reverse hk h hrev

theorem enforceStepSqlite_catalog (M : Nat) (f : String → Bool) (s : SysState)
    (full : List Photo) :
    (enforceStepSqlite M f s full).catalog =
      s.catalog.filter
        (fun p => decide (p.id ∉ ((full.drop M).take 1000000).map Photo.id)) := rfl

theorem enforceRun_catalog_of_ascending (M : Nat) (f : String → Bool)
    (s s2 : SysState)
    (hasc : ascendingTimes s.catalog)
    (hids : (s.catalog.map Photo.id).Nodup)
    (h : enforceRun M f s s2) :
    s2.catalog = s.catalog.drop (s.catalog.length - M) := by
  obtain ⟨full, hord, rfl⟩ := h
  have hfull : full = s.catalog.reverse :=
    ordered_of_ascending_eq_reverse _ _ hasc hord
  subst hfull
  rw [enforceStep_catalog]
  exact filter_reverse_drop s.catalog M hids

theorem enforceRunAny_catalog_of_ascending (M : Nat) (f : String → Bool)
    (s s2 : SysState)
    (hasc : ascendingSeconds s.catalog)
    (hids : (s.catalog.map Photo.id).Nodup)
    (hlen : s.catalog.length ≤ M + 1000000)
    (h : enforceRunAny M f s s2) :
    s2.catalog = s.catalog.drop (s.catalog.length - M) := by
  rcases h with hpg | ⟨full, hord, rfl⟩
  · exact enforceRun_catalog_of_ascending M f s s2
      (ascendingTimes_of_ascendingSeconds _ hasc) hids hpg
  · have hfull : full = s.catalog.reverse :=
      ordered_of_ascending_eq_reverse_sec _ _ hasc hord
    subst hfull
    rw [enforceStepSqlite_catalog]
    have htake : (s.catalog.reverse.drop M).take 1000000
        = s.catalog.reverse.drop M := by
      apply List.take_of_length_le
      rw [List.length_drop, List.length_reverse]
      omega
    rw [htake]
    exact filter_reverse_drop s.catalog M hids

theorem uploadsRunAny_catalog (M : Nat) (f : String → Bool) :
    ∀ (us : List (String × Nat)) (s s2 : SysState),
      UploadsRunAny M f us s s2 →
      ascendingSeconds (s.catalog ++ us.map mkUpload) →
      ((s.catalog ++ us.map mkUpload).map Photo.id).Nodup →
      s.catalog.length ≤ M →
      s2.catalog = (s.catalog ++ us.map mkUpload).drop
        ((s.catalog.length + us.length) - M) := by
  intro us
  induction us with
  | nil =>
    intro s s2 hrun hasc hids hlen
    cases hrun with
    | nil => simp [Nat.sub_eq_zero_of_le hlen]
  | cons u us ih =>
    intro s s2 hrun hasc hids hlen
    cases hrun with
    | cons _ _ _ mid _ hup hrest =>
      obtain ⟨midE, henf, rfl⟩ := hup
      have hbig : s.catalog ++ (u :: us).map mkUpload
          = (s.catalog ++ [mkUpload u]) ++ us.map mkUpload := by
        rw [List.append_assoc, List.singleton_append, List.map_cons]
      have hinsSub : (s.catalog ++ [mkUpload u]).Sublist
          (s.catalog ++ (u :: us).map mkUpload) := by
        rw [hbig]
        exact List.sublist_append_left _ _
      have hinsAsc : ascendingSeconds (insertUpload u.1 u.2 s).catalog := by
        rw [insertUpload_catalog]
        exact hasc.sublist hinsSub
      have hinsIds : ((insertUpload u.1 u.2 s).catalog.map Photo.id).Nodup := by
        rw [insertUpload_catalog]
        exact hids.sublist (hinsSub.map Photo.id)
      have hinsLen : (insertUpload u.1 u.2 s).catalog.length
          = s.catalog.length + 1 := by
        rw [insertUpload_catalog, List.length_append, List.length_singleton]
      have hmidE : midE.catalog
          = (s.catalog ++ [mkUpload u]).drop ((s.catalog.length + 1) - M) := by
        have h0 := enforceRunAny_catalog_of_ascending M f _ _ hinsAsc hinsIds
          (by rw [hinsLen]; omega) henf
        rw [insertUpload_catalog, List.length_append, List.length_singleton] at h0
        exact h0
      have hmidcat : (pushUploadEvent u.1 u.2 midE).catalog
          = (s.catalog ++ [mkUpload u]).drop ((s.catalog.length + 1) - M) := by
        rw [pushUploadEvent_catalog, hmidE]
      have hd : (s.catalog.length + 1) - M ≤ (s.catalog ++ [mkUpload u]).length := by
        rw [List.length_append, List.length_singleton]
        omega
      have hmidapp : (pushUploadEvent u.1 u.2 midE).catalog ++ us.map mkUpload
          = (s.catalog ++ (u :: us).map mkUpload).drop ((s.catalog.length + 1) - M) := by
        rw [hmidcat, hbig, List.drop_append_of_le_length hd]
      have hmidAsc : ascendingSeconds
          ((pushUploadEvent u.1 u.2 midE).catalog ++ us.map mkUpload) := by
        rw [hmidapp]
        exact hasc.sublist (List.drop_sublist _ _)
      have hmidIds : (((pushUploadEvent u.1 u.2 midE).catalog ++ us.map mkUpload).map
          Photo.id).Nodup := by
        rw [hmidapp]
        exact hids.sublist ((List.drop_sublist _ _).map Photo.id)
      have hmidLen : (pushUploadEvent u.1 u.2 midE).catalog.length ≤ M := by
        rw [hmidcat, List.length_drop, List.length_append, List.length_singleton]
        omega
      have hIH := ih _ _ hrest hmidAsc hmidIds hmidLen
      rw [hmidapp, List.drop_drop] at hIH
      have hmlen : (pushUploadEvent u.1 u.2 midE).catalog.length
          = (s.catalog.length + 1) - ((s.catalog.length + 1) - M) := by
        rw [hmidcat, List.length_drop, List.length_append, List.length_singleton]
      rw [hIH]
      congr 1
      rw [hmlen, List.length_cons]
      omega

theorem filter_map_pair (h : Nat) (e : String) :
    ∀ subs : List Nat,
      (subs.map (fun g => (g, e))).filter (fun x => decide (x.fst = h))
        = List.replicate (subs.count h) (h, e) := by
  intro subs
  induction subs with
  | nil => rfl
  | cons g rest ih =>
    by_cases hg : g = h
    · subst hg
      simp [List.filter_cons, List.count_cons, ih, List.replicate_succ, Nat.add_comm]
    · simp [List.filter_cons, List.count_cons, ih, hg]

theorem bus_no_delivery (h : Nat) :
    ∀ (ops : List BusOp) (s : BusState),
      (∀ op ∈ ops, op ≠ BusOp.connect h) → h ∉ s.subs →
      h ∉ (ops.foldl busStep s).subs ∧
        received h (ops.foldl busStep s) = received h s := by
  intro ops
  induction ops with
  | nil => intro s _ hs; exact ⟨hs, rfl⟩
  | cons op rest ih =>
    intro s hops hs
    have hrest : ∀ o ∈ rest, o ≠ BusOp.connect h :=
      fun o ho => hops o (List.mem_cons_of_mem _ ho)
    rw [List.foldl_cons]
    cases op with
    | connect g =>
      have hg : g ≠ h := by
        intro hgh
        exact (hops _ (List.mem_cons_self _ _)) (by rw [hgh])
      have hsubs : h ∉ (busStep s (BusOp.connect g)).subs := by
        show h ∉ (if g ∈ s.subs then s.subs else s.subs ++ [g])
        by_cases hmem : g ∈ s.subs
        · simpa [hmem] using hs
        · simp only [hmem, if_false, List.mem_append, List.mem_singleton]
          rintro (hh | hh)
          · exact hs hh
          · exact hg hh.symm
      obtain ⟨h1, h2⟩ := ih _ hrest hsubs
      refine ⟨h1, h2.trans ?_⟩
      have hhg : ¬ g = h := hg
      simp [received, busStep, List.filter_append, hhg]
    | publish e =>
      have hsubs : h ∉ (busStep s (BusOp.publish e)).subs := hs
      obtain ⟨h1, h2⟩ := ih _ hrest hsubs
      refine ⟨h1, h2.trans ?_⟩
      simp [received, busStep, List.filter_append, filter_map_pair,
        List.count_eq_zero_of_not_mem hs]
    | disconnect g =>
      have hsubs : h ∉ (busStep s (BusOp.disconnect g)).subs := by
        intro hmem
        exact hs (List.mem_of_mem_filter hmem)
      obtain ⟨h1, h2⟩ := ih _ hrest hsubs
      exact ⟨h1, h2⟩

theorem bus_delivers (h : Nat) :
    ∀ (ops : List BusOp) (s : BusState),
      (∀ op ∈ ops, op ≠ BusOp.disconnect h ∧ op ≠ BusOp.connect h) →
      s.subs.count h = 1 →
      received h (ops.foldl busStep s) = received h s ++ ops.filterMap pubOf := by
  intro ops
  induction ops with
  | nil => intro s _ _; simp
  | cons op rest ih =>
    intro s hops hcount
    have hrest : ∀ o ∈ rest, o ≠ BusOp.disconnect h ∧ o ≠ BusOp.connect h :=
      fun o ho => hops o (List.mem_cons_of_mem _ ho)
    rw [List.foldl_cons]
    cases op with
    | connect g =>
      have hg : g ≠ h := by
        intro hgh
        exact (hops _ (List.mem_cons_self _ _)).2 (by rw [hgh])
      have hcount2 : (busStep s (BusOp.connect g)).subs.count h = 1 := by
        show (if g ∈ s.subs then s.subs else s.subs ++ [g]).count h = 1
        by_cases hmem : g ∈ s.subs
        · simpa [hmem] using hcount
        · simp [hmem, List.count_append, hcount, List.count_singleton, hg]
      have h2 := ih _ hrest hcount2
      rw [h2]
      have hhg : ¬ g = h := hg
      have hrecv : received h (busStep s (BusOp.connect g)) = received h s := by
        simp [received, busStep, List.filter_append, hhg]
      rw [hrecv]
      simp [pubOf]
    | publish e =>
      have hcount2 : (busStep s (BusOp.publish e)).subs.count h = 1 := hcount
      have h2 := ih _ hrest hcount2
      rw [h2]
      have hrecv : received h (busStep s (BusOp.publish e))
          = received h s ++ [e] := by
        simp [received, busStep, List.filter_append, filter_map_pair, hcount]
      rw [hrecv]
      simp [pubOf]
    | disconnect g =>
      have hg : g ≠ h := by
        intro hgh
        exact (hops _ (List.mem_cons_self _ _)).1 (by rw [hgh])
      have hhg : ¬ h = g := fun hh => hg hh.symm
      have hcount2 : (busStep s (BusOp.disconnect g)).subs.count h = 1 := by
        show (s.subs.filter (fun x => decide (¬ x = g))).count h = 1
        rw [List.count_filter (by simpa using hhg)]
        exact hcount
      have h2 := ih _ hrest hcount2
      rw [h2]
      simp [received, busStep, pubOf]

theorem uploadRun_uploadStep (M : Nat) (f : String → Bool) (id : String)
    (t : Nat) (s : SysState) :
    uploadRun M f id t s (uploadStep M f id t s) :=
  ⟨enforceMaxPhotos M f (insertUpload id t s),
    ⟨sortNewest (insertUpload id t s).catalog,
      ⟨(List.perm_insertionSort _ _).symm, List.sorted_insertionSort _ _⟩, rfl⟩,
    rfl⟩

theorem uploadRunAny_uploadStep (M : Nat) (f : String → Bool) (id : String)
    (t : Nat) (s : SysState) :
    uploadRunAny M f id t s (uploadStep M f id t s) :=
  ⟨enforceMaxPhotos M f (insertUpload id t s),
    Or.inl ⟨sortNewest (insertUpload id t s).catalog,
      ⟨(List.perm_insertionSort _ _).symm, List.sorted_insertionSort _ _⟩, rfl⟩,
    rfl⟩

theorem uploadsRunAny_runUploads (M : Nat) (f : String → Bool) :
    ∀ (us : List (String × Nat)) (s : SysState),
      UploadsRunAny M f us s (runUploads M f us s) := by
  intro us
  induction us with
  | nil => intro s; exact UploadsRunAny.nil s
  | cons u rest ih =>
    intro s
    exact UploadsRunAny.cons u rest s (uploadStep M f u.1 u.2 s) _
      (uploadRunAny_uploadStep M f u.1 u.2 s) (ih (uploadStep M f u.1 u.2 s))

/-- C1: the claim says both the listing query and the eviction query
order rows by createdAt descending with ties broken by id descending,
making the order total and evictions deterministic.  The queries order
by createdAt alone, so on a tied table the engine may answer in id
ascending order, and may answer the same query in two different orders:
the claim fails. -/
theorem listing_tie_order_counterexample :
    orderedByCreatedAtDesc [photoTie1, photoTie2] [photoTie1, photoTie2] ∧
    ¬ ([photoTie1, photoTie2].Pairwise specOrder) ∧
    orderedByCreatedAtDesc [photoTie1, photoTie2] [photoTie2, photoTie1] ∧
    [photoTie1, photoTie2] ≠ [photoTie2, photoTie1] :=
  ⟨⟨by decide, by decide⟩, by decide, ⟨by decide, by decide⟩, by decide⟩

/-- C1 (amended): both operations order by createdAt descending only,
the Postgres variant on the millisecond value and the SQLite variant on
the whole second; when no two rows fall in the same whole second this
order is total, any two valid query answers of either variant coincide,
and hence every listing and every set of eviction candidates is
determined, identically in both variants. -/
theorem ordering_deterministic_of_distinct_seconds (table o1 o2 : List Photo)
    (M k : Nat)
    (hk : (table.map (fun p => p.createdAt / 1000)).Nodup)
    (h1 : orderedByCreatedAtDesc table o1 ∨ orderedBySecondDesc table o1)
    (h2 : orderedByCreatedAtDesc table o2 ∨ orderedBySecondDesc table o2) :
    o1 = o2 ∧ o1.take k = o2.take k ∧ o1.drop M = o2.drop M := by
  have hconv : ∀ o : List Photo,
      orderedByCreatedAtDesc table o ∨ orderedBySecondDesc table o →
        orderedBySecondDesc table o := by
    rintro o (⟨hp, hs⟩ | ho)
    · exact ⟨hp, sortedSecond_of_sortedNewest o hs⟩
    · exact ho
  have he := ordered_unique_seconds table o1 o2 hk (hconv o1 h1) (hconv o2 h2)
  exact ⟨he, by rw [he], by rw [he]⟩

/-- Witness for the amended C1 at a concrete table whose rows fall in
distinct whole seconds, comparing a Postgres answer with a SQLite one. -/
theorem ordering_deterministic_witness :
    (([photoT1, photoT2].map (fun p => p.createdAt / 1000)).Nodup) ∧
    sortNewest [photoT1, photoT2] = [photoT2, photoT1] :=
  ⟨by decide,
    (ordering_deterministic_of_distinct_seconds [photoT1, photoT2]
      (sortNewest [photoT1, photoT2]) [photoT2, photoT1] 0 0 (by decide)
      (Or.inl ⟨(List.perm_insertionSort _ _).symm, List.sorted_insertionSort _ _⟩)
      (Or.inr ⟨by decide, by decide⟩)).1⟩

/-- C2: on tied timestamps the eviction choice is engine-dependent, so a
sequence of sequential uploads with unique ids need not leave the
min(N, MAX_PHOTOS) newest rows by the (createdAt, id) order: uploading
a then b at the same timestamp with MAX_PHOTOS = 1 can leave row a
although the specification calls row b the newer one. -/
theorem sequential_uploads_tie_counterexample :
    uploadRun 1 (fun _ => true) "a" 5 initState s1tie ∧
    uploadRun 1 (fun _ => true) "b" 5 s1tie s2tie ∧
    (sortNewestById (insertUpload "b" 5 s1tie).catalog).take 1 = [photoTie2] ∧
    s2tie.catalog = [photoTie1] ∧
    s2tie.catalog ≠ [photoTie2] :=
  ⟨uploadRun_uploadStep 1 (fun _ => true) "a" 5 initState,
    ⟨enforceStep 1 (fun _ => true) (insertUpload "b" 5 s1tie)
        [photoTie1, photoTie2],
      ⟨[photoTie1, photoTie2], ⟨by decide, by decide⟩, rfl⟩, rfl⟩,
    by decide, by decide, by decide⟩

/-- C2 (amended): for every sequence of sequential uploads with unique
ids whose timestamps fall in strictly increasing whole seconds, once each
triggered enforcement run of either variant has completed, the catalog
holds exactly the min(N, MAX_PHOTOS) newest rows; the MAX_PHOTOS = 2
scenario with uploads a, b, c at seconds 1, 2, 3 is the witness below. -/
theorem sequential_uploads_bounded (M : Nat) (f : String → Bool)
    (us : List (String × Nat)) (s2 : SysState)
    (hrun : UploadsRunAny M f us initState s2)
    (hts : (us.map (fun u => u.2 / 1000)).Pairwise (fun a b => a < b))
    (hids : (us.map Prod.fst).Nodup) :
    s2.catalog = (us.map mkUpload).drop (us.length - M) ∧
    s2.catalog.length = min us.length M := by
  have hasc : ascendingSeconds (initState.catalog ++ us.map mkUpload) := by
    show ([] ++ us.map mkUpload).Pairwise _
    rw [List.nil_append]
    exact List.pairwise_map.mpr (List.pairwise_map.mp hts)
  have hids2 : ((initState.catalog ++ us.map mkUpload).map Photo.id).Nodup := by
    show ((([] : List Photo) ++ us.map mkUpload).map Photo.id).Nodup
    rw [List.nil_append]
    have h1 : us.Pairwise (fun a b => a.1 ≠ b.1) := List.pairwise_map.mp hids
    exact List.pairwise_map.mpr (List.pairwise_map.mpr h1)
  have hmain := uploadsRunAny_catalog M f us initState s2 hrun hasc hids2
    (by simp [initState])
  simp only [show initState.catalog = ([] : List Photo) from rfl,
    List.nil_append, List.length_nil, Nat.zero_add] at hmain
  refine ⟨hmain, ?_⟩
  rw [hmain, List.length_drop, List.length_map]
  omega

/-- Witness for the amended C2: the MAX_PHOTOS = 2 scenario of the
specification, uploads a, b, c at seconds 1, 2, 3 (milliseconds 1000,
2000, 3000); the final catalog is exactly rows b and c, the blob delete
of a was attempted, and a is absent from listNewest(10). -/
theorem sequential_uploads_bounded_witness :
    (([("a", 1000), ("b", 2000), ("c", 3000)].map
      (fun u => u.2 / 1000)).Pairwise (fun a b => a < b)) ∧
    (runUploads 2 (fun _ => true) [("a", 1000), ("b", 2000), ("c", 3000)]
      initState).catalog
      = [uploadedPhoto "b" 2000, uploadedPhoto "c" 3000] ∧
    (runUploads 2 (fun _ => true) [("a", 1000), ("b", 2000), ("c", 3000)]
      initState).catalog.length = min 3 2 ∧
    "memorial_wall/a" ∈ (runUploads 2 (fun _ => true)
      [("a", 1000), ("b", 2000), ("c", 3000)] initState).blobDeleteAttempts ∧
    uploadedPhoto "a" 1000 ∉ listNewestExec (runUploads 2 (fun _ => true)
      [("a", 1000), ("b", 2000), ("c", 3000)] initState).catalog 10 :=
  ⟨by decide,
    ((sequential_uploads_bounded 2 (fun _ => true)
      [("a", 1000), ("b", 2000), ("c", 3000)] _
      (uploadsRunAny_runUploads 2 (fun _ => true)
        [("a", 1000), ("b", 2000), ("c", 3000)] initState)
      (by decide) (by decide)).1).trans (by decide),
    (sequential_uploads_bounded 2 (fun _ => true)
      [("a", 1000), ("b", 2000), ("c", 3000)] _
      (uploadsRunAny_runUploads 2 (fun _ => true)
        [("a", 1000), ("b", 2000), ("c", 3000)] initState)
      (by decide) (by decide)).2,
    by decide, by decide⟩

/-- C3: every eviction candidate returned by the beyond-MAX_PHOTOS query
has its blob deletion attempted and its catalog row deleted whatever the
blob-store outcomes are; the resulting catalog equals the all-success
catalog and no event or error reaches anyone. -/
theorem eviction_deletes_rows_regardless_of_blob_failures
    (M : Nat) (f : String → Bool) (s s2 : SysState) (full : List Photo)
    (p : Photo)
    (hrun : enforceRunWith M f s full s2) (hp : p ∈ full.drop M) :
    p.publicId ∈ s2.blobDeleteAttempts ∧
    p.id ∉ s2.catalog.map Photo.id ∧
    s2.catalog = (enforceStep M (fun _ => true) s full).catalog ∧
    s2.events = s.events := by
  obtain ⟨-, rfl⟩ := hrun
  refine ⟨?_, ?_, rfl, rfl⟩
  · rw [enforceStep_attempts]
    exact List.mem_append_right _ (List.mem_map_of_mem Photo.publicId hp)
  · rw [enforceStep_catalog]
    intro hmem
    obtain ⟨q, hq, hid⟩ := List.mem_map.mp hmem
    have hfilt := List.of_mem_filter hq
    rw [decide_eq_true_eq] at hfilt
    refine hfilt ?_
    rw [hid]
    exact List.mem_map_of_mem Photo.id hp

/-- Witness for C3, with every blob deletion failing. -/
theorem eviction_regardless_witness :
    enforceRunWith 1 (fun _ => false) c3State [photoT2, photoT1]
      (enforceStep 1 (fun _ => false) c3State [photoT2, photoT1]) ∧
    photoT1 ∈ [photoT2, photoT1].drop 1 ∧
    photoT1.publicId ∈ (enforceStep 1 (fun _ => false) c3State
      [photoT2, photoT1]).blobDeleteAttempts ∧
    photoT1.id ∉ (enforceStep 1 (fun _ => false) c3State
      [photoT2, photoT1]).catalog.map Photo.id :=
  ⟨⟨⟨by decide, by decide⟩, rfl⟩, by decide,
    (eviction_deletes_rows_regardless_of_blob_failures 1 (fun _ => false)
      c3State _ [photoT2, photoT1] photoT1 ⟨⟨by decide, by decide⟩, rfl⟩
      (by decide)).1,
    (eviction_deletes_rows_regardless_of_blob_failures 1 (fun _ => false)
      c3State _ [photoT2, photoT1] photoT1 ⟨⟨by decide, by decide⟩, rfl⟩
      (by decide)).2.1⟩

/-- C4: on a table with tied timestamps, a valid answer to listNewest(1)
need not be the first element of a valid answer to listNewest(2), because
the engine may order the tied rows differently in the two queries: the
claim fails. -/
theorem listNewest_not_prefix_counterexample :
    validListNewest [photoTie1, photoTie2] 1 [photoTie1] ∧
    validListNewest [photoTie1, photoTie2] 2 [photoTie2, photoTie1] ∧
    [photoTie1] ≠ [photoTie2, photoTie1].take 1 :=
  ⟨⟨[photoTie1, photoTie2], ⟨by decide, by decide⟩, by decide⟩,
    ⟨[photoTie2, photoTie1], ⟨by decide, by decide⟩, by decide⟩,
    by decide⟩

/-- C4 (amended): when no two rows of the table fall in the same whole
second, every valid answer to listNewest(k) of either variant is exactly
the first min(k, size) elements of every valid answer to listNewest(k+1)
of either variant. -/
theorem listNewest_take_of_next (table : List Photo) (k : Nat)
    (o1 o2 : List Photo)
    (hk : (table.map (fun p => p.createdAt / 1000)).Nodup)
    (h1 : validListNewest table k o1 ∨ validListNewestSecond table k o1)
    (h2 : validListNewest table (k + 1) o2 ∨
      validListNewestSecond table (k + 1) o2) :
    o1 = o2.take k ∧ o1.length = min k table.length := by
  have hconv : ∀ (m : Nat) (o : List Photo),
      validListNewest table m o ∨ validListNewestSecond table m o →
        validListNewestSecond table m o := by
    rintro m o (⟨full, ⟨hp, hs⟩, rfl⟩ | ho)
    · exact ⟨full, ⟨hp, sortedSecond_of_sortedNewest full hs⟩, rfl⟩
    · exact ho
  obtain ⟨f1, hord1, rfl⟩ := hconv k o1 h1
  obtain ⟨f2, hord2, rfl⟩ := hconv (k + 1) o2 h2
  have he : f1 = f2 := ordered_unique_seconds table f1 f2 hk hord1 hord2
  subst he
  constructor
  · rw [List.take_take]
    congr 1
    omega
  · rw [List.length_take, ← hord1.1.length_eq]

/-- Witness for the amended C4 at a concrete table with rows in distinct
whole seconds, comparing a Postgres listNewest(1) with a SQLite
listNewest(2). -/
theorem listNewest_take_witness :
    (([photoT1, photoT2].map (fun p => p.createdAt / 1000)).Nodup) ∧
    listNewestExec [photoT1, photoT2] 1
      = ([photoT2, photoT1] : List Photo).take 1 ∧
    (listNewestExec [photoT1, photoT2] 1).length = min 1 2 :=
  ⟨by decide,
    (listNewest_take_of_next [photoT1, photoT2] 1
      (listNewestExec [photoT1, photoT2] 1) [photoT2, photoT1] (by decide)
      (Or.inl ⟨sortNewest [photoT1, photoT2],
        ⟨(List.perm_insertionSort _ _).symm, List.sorted_insertionSort _ _⟩,
        rfl⟩)
      (Or.inr ⟨[photoT2, photoT1], ⟨by decide, by decide⟩, by decide⟩)).1,
    (listNewest_take_of_next [photoT1, photoT2] 1
      (listNewestExec [photoT1, photoT2] 1) [photoT2, photoT1] (by decide)
      (Or.inl ⟨sortNewest [photoT1, photoT2],
        ⟨(List.perm_insertionSort _ _).symm, List.sorted_insertionSort _ _⟩,
        rfl⟩)
      (Or.inr ⟨[photoT2, photoT1], ⟨by decide, by decide⟩, by decide⟩)).2⟩

/-- C5: the claim that the response never holds more rows than the
effective limit fails for a negative limit parameter: limit=-1 passes -1
through the clamp, and the SQLite variant then returns every row of a
nonempty catalog, more rows than -1. -/
theorem photos_limit_counterexample :
    effLimit (some "-1") = some (-1) ∧
    sqliteListRows [photoT1] (-1) [photoT1] ∧
    ¬ ((([photoT1] : List Photo).length : Int) ≤ -1) :=
  ⟨by decide, ⟨[photoT1], ⟨by decide, by decide⟩, by decide⟩, by decide⟩

/-- C5 (amended): the effective limit is the parsed limit clamped to the
2000 ceiling, 800 when the parameter is absent, and whenever the
effective limit is nonnegative the listing response of either variant
holds at most that many rows; negative parsed values pass through and
escape the bound. -/
theorem photos_limit_clamped (q : Option String) (v : Int)
    (table out1 out2 : List Photo)
    (hv : effLimit q = some v) :
    v ≤ 2000 ∧ effLimit none = some 800 ∧
    (pgListRows table v out1 → (out1.length : Int) ≤ v) ∧
    (0 ≤ v → sqliteListRows table v out2 → (out2.length : Int) ≤ v) := by
  refine ⟨?_, by decide, ?_, ?_⟩
  · rcases q with _ | s0
    · have h8 : (some v : Option Int) = some 800 := hv.symm.trans (by decide)
      simp only [Option.some.injEq] at h8
      omega
    · by_cases hs : s0 = ""
      · subst hs
        have h8 : (some v : Option Int) = some 800 := hv.symm.trans (by decide)
        simp only [Option.some.injEq] at h8
        omega
      · have hv2 : (match jsParseInt s0 with
            | none => none
            | some w => some (min w 2000)) = some v := by
          rw [← hv]
          simp [effLimit, hs]
        rcases hj : jsParseInt s0 with _ | w
        · rw [hj] at hv2
          cases hv2
        · rw [hj] at hv2
          simp only [Option.some.injEq] at hv2
          omega
  · rintro ⟨h0, full, hord, rfl⟩
    rw [List.length_take]
    have hle : min v.toNat full.length ≤ v.toNat := Nat.min_le_left _ _
    calc ((min v.toNat full.length : Nat) : Int)
        ≤ (v.toNat : Int) := by exact_mod_cast hle
      _ = v := Int.toNat_of_nonneg h0
  · rintro h0 ⟨full, hord, rfl⟩
    rw [if_neg (by omega)]
    rw [List.length_take]
    have hle : min v.toNat full.length ≤ v.toNat := Nat.min_le_left _ _
    calc ((min v.toNat full.length : Nat) : Int)
        ≤ (v.toNat : Int) := by exact_mod_cast hle
      _ = v := Int.toNat_of_nonneg h0

/-- Witness for the amended C5: limit=5000 is clamped to 2000 and the
response is bounded by it. -/
theorem photos_limit_clamped_witness :
    effLimit (some "5000") = some 2000 ∧
    (2000 : Int) ≤ 2000 ∧
    effLimit none = some 800 ∧
    ((listNewestExec [photoT1] 2000).length : Int) ≤ 2000 :=
  ⟨by decide,
    (photos_limit_clamped (some "5000") 2000 [photoT1]
      (listNewestExec [photoT1] 2000) [] (by decide)).1,
    (photos_limit_clamped (some "5000") 2000 [photoT1]
      (listNewestExec [photoT1] 2000) [] (by decide)).2.1,
    (photos_limit_clamped (some "5000") 2000 [photoT1]
      (listNewestExec [photoT1] 2000) [] (by decide)).2.2.1
      ⟨by decide, sortNewest [photoT1],
        ⟨(List.perm_insertionSort _ _).symm, List.sorted_insertionSort _ _⟩,
        rfl⟩⟩

/-- C6: with a valid admin key and an id absent from the catalog, the
delete route answers 404 before touching the blob store and leaves the
whole state unchanged. -/
theorem delete_missing_id_not_found (env : Option String)
    (f : String → Bool) (key : Option String) (reqId : String) (s : SysState)
    (hauth : key = some (ADMIN_KEY env))
    (habsent : ∀ p ∈ s.catalog, p.id ≠ reqId) :
    deletePhoto env f key reqId s = (DelResp.notFound, s) := by
  unfold deletePhoto
  rw [if_pos hauth]
  have hfind : s.catalog.find? (fun p => decide (p.id = reqId)) = none :=
    List.find?_eq_none.mpr (fun p hp => by simpa using habsent p hp)
  rw [hfind]

/-- Witness for C6 at a concrete one-row state. -/
theorem delete_missing_id_not_found_witness :
    (some "12345" : Option String) = some (ADMIN_KEY none) ∧
    deletePhoto none (fun _ => true) (some "12345") "zzz" c6State
      = (DelResp.notFound, c6State) :=
  ⟨by decide,
    delete_missing_id_not_found none (fun _ => true) (some "12345") "zzz"
      c6State (by decide) (by decide)⟩

/-- Frames a client receives only depend on the log, and an appended log
segment contributes exactly its frames addressed to that client. -/
theorem received_append (h : Nat) (subs1 subs2 : List Nat)
    (log tail : List (Nat × String)) :
    received h { subs := subs2, log := log ++ tail }
      = received h { subs := subs1, log := log }
        ++ (tail.filter (fun e => decide (e.fst = h))).map Prod.snd := by
  unfold received
  simp [List.filter_append]

/-- C7: a client that connects after any prefix of operations in which it
never appears receives exactly its own hello frame followed by the events
published after its connection, as long as it stays connected: none of
the earlier events reach it, and each publish reaches exactly the clients
connected at that moment. -/
theorem late_subscriber_sees_only_later_events (pre post : List BusOp)
    (h : Nat)
    (hpre : ∀ op ∈ pre, op ≠ BusOp.connect h)
    (hpost : ∀ op ∈ post, op ≠ BusOp.disconnect h ∧ op ≠ BusOp.connect h) :
    received h (busRun (pre ++ BusOp.connect h :: post))
      = "hello" :: post.filterMap pubOf := by
  unfold busRun
  rw [List.foldl_append, List.foldl_cons]
  obtain ⟨hnot, hrecv⟩ :=
    bus_no_delivery h pre { subs := [], log := [] } hpre (by simp)
  have hrecv0 : received h (pre.foldl busStep { subs := [], log := [] }) = [] :=
    hrecv.trans rfl
  set s1 := pre.foldl busStep { subs := [], log := [] } with hs1
  have hcount : (busStep s1 (BusOp.connect h)).subs.count h = 1 := by
    show (if h ∈ s1.subs then s1.subs else s1.subs ++ [h]).count h = 1
    rw [if_neg hnot, List.count_append, List.count_eq_zero_of_not_mem hnot]
    simp
  have hrecv1 : received h (busStep s1 (BusOp.connect h)) = ["hello"] := by
    show received h { subs := _, log := s1.log ++ [(h, "hello")] } = ["hello"]
    rw [received_append h s1.subs _ s1.log [(h, "hello")]]
    have : received h { subs := s1.subs, log := s1.log } = received h s1 := rfl
    rw [this, hrecv0]
    simp
  rw [bus_delivers h post (busStep s1 (BusOp.connect h)) hpost hcount, hrecv1]
  rfl

/-- Witness for C7: client 2 connects after one event was published and
receives only hello and the later event. -/
theorem late_subscriber_witness :
    (∀ op ∈ ([BusOp.connect 1, BusOp.publish "x"] : List BusOp),
      op ≠ BusOp.connect 2) ∧
    received 2 (busRun ([BusOp.connect 1, BusOp.publish "x"]
      ++ BusOp.connect 2 :: [BusOp.publish "y"])) = ["hello", "y"] :=
  ⟨by decide,
    (late_subscriber_sees_only_later_events
      [BusOp.connect 1, BusOp.publish "x"] [BusOp.publish "y"] 2
      (by decide) (by decide)).trans (by decide)⟩

/-- C8: the limit clamp only imposes the 2000 ceiling: any parsed value
v up to 2000, negative ones included, is passed through unchanged to the
SQL LIMIT; SQLite answers LIMIT -1 with every row of the table; and a
non-numeric nonempty limit parameter produces NaN, not the 800 default. -/
theorem limit_clamp_upper_only (s t : String) (v : Int)
    (table out : List Photo)
    (hparse : jsParseInt s = some v) (hle : v ≤ 2000)
    (ht : t ≠ "") (htn : jsParseInt t = none) :
    effLimit (some s) = some v ∧
    (sqliteListRows table (-1) out → out.Perm table) ∧
    effLimit (some t) = none := by
  refine ⟨?_, ?_, ?_⟩
  · have hs : s ≠ "" := by
      intro he
      rw [he] at hparse
      have hnone : jsParseInt "" = none := by decide
      rw [hnone] at hparse
      cases hparse
    simp only [effLimit]
    rw [if_neg hs, hparse]
    show some (min v 2000) = some v
    rw [min_eq_left hle]
  · rintro ⟨full, hord, rfl⟩
    exact hord.1.symm
  · simp only [effLimit]
    rw [if_neg ht, htn]

/-- Witness for C8: limit=-1 passes -1 through, a one-row table is
returned whole, and limit=abc yields NaN. -/
theorem limit_clamp_upper_only_witness :
    jsParseInt "-1" = some (-1) ∧
    effLimit (some "-1") = some (-1) ∧
    ([photoT1] : List Photo).Perm [photoT1] ∧
    effLimit (some "abc") = none :=
  ⟨by decide,
    (limit_clamp_upper_only "-1" "abc" (-1) [photoT1] [photoT1]
      (by decide) (by decide) (by decide) (by decide)).1,
    (limit_clamp_upper_only "-1" "abc" (-1) [photoT1] [photoT1]
      (by decide) (by decide) (by decide) (by decide)).2.1
      ⟨[photoT1], ⟨by decide, by decide⟩, by decide⟩,
    (limit_clamp_upper_only "-1" "abc" (-1) [photoT1] [photoT1]
      (by decide) (by decide) (by decide) (by decide)).2.2⟩

/-- C9: with the ADMIN_KEY environment variable unset, the delete route
compares the x-admin-key header against the hardcoded fallback "12345",
so a caller presenting 12345 passes authorization and reaches the lookup:
the outcome is never forbidden, only 404 or a successful delete. -/
theorem fallback_admin_key_authorizes (f : String → Bool) (reqId : String)
    (s : SysState) :
    ADMIN_KEY none = "12345" ∧
    (deletePhoto none f (some "12345") reqId s).fst =
      (match s.catalog.find? (fun p => decide (p.id = reqId)) with
       | none => DelResp.notFound
       | some _ => DelResp.ok reqId) := by
  refine ⟨rfl, ?_⟩
  unfold deletePhoto
  rw [if_pos (show (some "12345" : Option String) = some (ADMIN_KEY none)
    from rfl)]
  cases hfind : s.catalog.find? (fun p => decide (p.id = reqId)) <;> rfl

/-- C10: the two variants are not observationally equivalent.  SQLite
orders by datetime(createdAt), which truncates to whole seconds, so for
two rows inside the same second it may answer the listing in an order
the millisecond-precise Postgres variant can never produce. -/
theorem variants_not_equivalent_counterexample :
    sqliteListRows [photoMs1, photoMs2] 2 [photoMs1, photoMs2] ∧
    ¬ pgListRows [photoMs1, photoMs2] 2 [photoMs1, photoMs2] := by
  constructor
  · exact ⟨[photoMs1, photoMs2], ⟨by decide, by decide⟩, by decide⟩
  · rintro ⟨-, full, ⟨hperm, hsort⟩, heq⟩
    have hlen : full.length = 2 := hperm.length_eq.symm
    have htake : full.take 2 = full := List.take_of_length_le (by omega)
    have heq2 : [photoMs1, photoMs2] = full.take 2 := heq
    have hfull : full = [photoMs1, photoMs2] := (heq2.trans htake).symm
    rw [hfull] at hsort
    exact absurd hsort (by decide)

/-- C10 (amended): the Postgres variant refines the SQLite variant:
every valid Postgres listing answer is also a valid SQLite answer, and
every valid Postgres eviction-candidate answer is a valid SQLite one as
long as it fits under the SQLite LIMIT 1000000 cap; the converse fails
by the counterexample. -/
theorem pg_refines_sqlite (table : List Photo) (v : Int) (m : Nat)
    (out outB : List Photo)
    (hpg : pgListRows table v out)
    (hbound : table.length ≤ m + 1000000)
    (hpgB : pgListBeyond table m outB) :
    sqliteListRows table v out ∧ sqliteListBeyond table m outB := by
  have hmono : ∀ full0 : List Photo,
      full0.Sorted newerFirst → full0.Sorted newerSecondFirst :=
    fun full0 hs => hs.imp (fun hab => Nat.div_le_div_right hab)
  obtain ⟨h0, full, ⟨hperm, hsort⟩, rfl⟩ := hpg
  obtain ⟨fullB, ⟨hpermB, hsortB⟩, rfl⟩ := hpgB
  constructor
  · refine ⟨full, ⟨hperm, hmono full hsort⟩, ?_⟩
    rw [if_neg (by omega)]
  · refine ⟨fullB, ⟨hpermB, hmono fullB hsortB⟩, ?_⟩
    have h1 : (fullB.drop m).length ≤ 1000000 := by
      rw [List.length_drop, ← hpermB.length_eq]
      omega
    rw [List.take_of_length_le h1]

/-- Witness for the amended C10 on a tie-free two-row table. -/
theorem pg_refines_sqlite_witness :
    pgListRows [photoT1, photoT2] 2 [photoT2, photoT1] ∧
    sqliteListRows [photoT1, photoT2] 2 [photoT2, photoT1] ∧
    sqliteListBeyond [photoT1, photoT2] 1 [photoT1] :=
  ⟨⟨by decide, [photoT2, photoT1], ⟨by decide, by decide⟩, by decide⟩,
    (pg_refines_sqlite [photoT1, photoT2] 2 1 [photoT2, photoT1] [photoT1]
      ⟨by decide, [photoT2, photoT1], ⟨by decide, by decide⟩, by decide⟩
      (by decide)
      ⟨[photoT2, photoT1], ⟨by decide, by decide⟩, by decide⟩).1,
    (pg_refines_sqlite [photoT1, photoT2] 2 1 [photoT2, photoT1] [photoT1]
      ⟨by decide, [photoT2, photoT1], ⟨by decide, by decide⟩, by decide⟩
      (by decide)
      ⟨[photoT2, photoT1], ⟨by decide, by decide⟩, by decide⟩).2⟩

end MemorialWall
